import Mathlib

/-!
Verification of the baganify tree-layout and connector-routing engine.

This file gives a shallow embedding of the engine's data model and
operations, translated from the TypeScript sources:

  * `src/lib/layout/algorithm.ts`   — `hasGrandchildren`, `enforceHorizontalParents`,
    `layoutShapesByLevel`, `buildGraph`, `calculateSubtreeDimensions`,
    `layoutTreeRecursive`, `updateAllConnectors`, `updateSingleConnector`;
  * `src/lib/shapes/renderer.ts`    — `getShapeConnectionPoint` and the shape
    type definitions (`RectangleShape`, `EllipseShape`, `TriangleShape`,
    `TextShape`, `ElbowConnectorShape`, `ConnectorBinding`);
  * the connector renderer component — `getElbowPath`;
  * `src/lib/store/shapes.ts`       — the `addChild` store action.

Modelling conventions:

  * TypeScript numbers are modelled as `Rat` (all arithmetic performed by the
    engine is exact on rationals; no `NaN`/`Infinity` paths are exercised by
    the claims, which all use positive layout parameters).
  * `Math.round` (used for the `level` field) is modelled by `jsRound`,
    rounding half up, which agrees with JavaScript on every rational.
  * Styling fields (`fill`, `stroke`, `strokeWidth`, `label`, ...) are never
    read by any embedded function; they are carried by the shapes only as
    inert data and are omitted from the record types.
  * The two sources of unbounded recursion in the engine — the `while` loop of
    `enforceHorizontalParents` and the recursion of
    `calculateSubtreeDimensions` / `layoutTreeRecursive` — are embedded with
    an explicit fuel parameter returning `Option`; `none` models
    non-termination (in JavaScript: an infinite loop or a stack overflow).
    On every input on which the TypeScript terminates, a large enough fuel
    returns `some` of the same value.
  * JavaScript `Map` built by successive `set` keeps the last write per key;
    lookups are modelled accordingly (`lookupShape`, `ehpParentOf`).
-/

/- The `Rat` arithmetic of Batteries is irreducible by default; making it
semireducible lets concrete layout runs be checked by `decide`/`rfl`. -/
attribute [local semireducible] Rat.add Rat.mul Rat.sub Rat.inv Rat.ofScientific

/-- Connector binding side (`ConnectorBinding['side']`). -/
inductive Side
  | top
  | right
  | bottom
  | left
  | center
deriving DecidableEq, Repr

/-- A connector endpoint binding: `{ shapeId, side }`. -/
structure Binding where
  shapeId : String
  side : Side
deriving DecidableEq, Repr

/-- Per-box child layout mode.  In the source this is the optional field
`childLayout`; an absent field behaves exactly like `"horizontal"` (every
read tests `=== "vertical"`), so two values suffice. -/
inductive ChildLayout
  | horizontal
  | vertical
deriving DecidableEq, Repr

/-- A connector's `startDirection`. -/
inductive Dir
  | horizontal
  | vertical
deriving DecidableEq, Repr

/-- Arrowhead kind at a connector end. -/
inductive Arrowhead
  | none
  | arrow
  | bar
deriving DecidableEq, Repr

/-- The two concrete box kinds (`"rectangle"` / `"ellipse"`); identical
layout semantics. -/
inductive BoxKind
  | rectangle
  | ellipse
deriving DecidableEq, Repr

/-- Non-box, non-connector shape kinds (`"triangle"` / `"text"`), passed
through untouched by the engine. -/
inductive OtherKind
  | triangle
  | text
deriving DecidableEq, Repr

/-- A 2-D point. -/
structure Point where
  x : Rat
  y : Rat
deriving DecidableEq, Repr

/-- Layout-relevant data of a box (`RectangleShape` / `EllipseShape`). -/
structure BoxData where
  kind : BoxKind
  id : String
  x : Rat
  y : Rat
  width : Rat
  height : Rat
  level : Int
  childLayout : ChildLayout
deriving DecidableEq, Repr

/-- Layout-relevant data of an `ElbowConnectorShape`. -/
structure ConnData where
  id : String
  x : Rat
  y : Rat
  startPoint : Point
  endPoint : Point
  startDirection : Dir
  startBinding : Option Binding
  endBinding : Option Binding
  startArrowhead : Arrowhead
  endArrowhead : Arrowhead
deriving DecidableEq, Repr

/-- Data of a pass-through shape (`TriangleShape` / `TextShape`). -/
structure OtherData where
  kind : OtherKind
  id : String
  x : Rat
  y : Rat
  width : Rat
  height : Rat
deriving DecidableEq, Repr

/-- The closed shape union (`Shape` in `shapes/types`). -/
inductive Shape
  | box (d : BoxData)
  | conn (d : ConnData)
  | other (d : OtherData)
deriving DecidableEq, Repr

/-- Accessor for `shape.id`. -/
def Shape.id : Shape → String
  | .box d => d.id
  | .conn d => d.id
  | .other d => d.id

/-- Test for `shape.type === "rectangle" || shape.type === "ellipse"`. -/
def Shape.isBox : Shape → Bool
  | .box _ => true
  | _ => false

/-- Test for `shape.type === "elbow-connector"`. -/
def Shape.isConn : Shape → Bool
  | .conn _ => true
  | _ => false

/-- The boxes of a shape list (the `boxes` filter of `layoutShapesByLevel`). -/
def shapeBoxes (shapes : List Shape) : List BoxData :=
  shapes.filterMap fun s =>
    match s with
    | .box d => some d
    | _ => none

/-- The connectors of a shape list. -/
def shapeConns (shapes : List Shape) : List ConnData :=
  shapes.filterMap fun s =>
    match s with
    | .conn d => some d
    | _ => none

/-- The remaining shapes (`others` filter of `layoutShapesByLevel`),
kept as the identical input elements. -/
def shapeOthers (shapes : List Shape) : List Shape :=
  shapes.filter fun s => !s.isBox && !s.isConn

/-- Structure `LayoutParams` (`src/lib/layout/types.ts`). -/
structure LayoutParams where
  levelHeight : Rat
  shapeGap : Rat
  verticalIndent : Rat
deriving DecidableEq, Repr

/-- Constant `DEFAULT_LAYOUT_PARAMS`. -/
def defaultLayoutParams : LayoutParams :=
  { levelHeight := 40, shapeGap := 20, verticalIndent := 20 }

/-- Model of `Math.round`: round half toward positive infinity, as JavaScript does. -/
def jsRound (q : Rat) : Int :=
  (q + 1 / 2).floor

/-- Model of `Math.max` over a list of already-computed values.  Every call site in the
engine evaluates it on a nonempty list (each is guarded by a length check or
by the nonemptiness of the root set); the `[]` case is never reached. -/
def listMax : List Rat → Rat
  | [] => 0
  | x :: xs => xs.foldl max x

/-- Side → point mapping for a shape with `x`/`y`/`width`/`height`
(`getShapeConnectionPoint`, `renderer.ts`): top/bottom/left/right midpoints,
center, with center as the default branch. -/
def sidePoint (x y w h : Rat) (side : Side) : Point :=
  let cx := x + w / 2
  let cy := y + h / 2
  match side with
  | .top => ⟨cx, y⟩
  | .right => ⟨x + w, cy⟩
  | .bottom => ⟨cx, y + h⟩
  | .left => ⟨x, cy⟩
  | .center => ⟨cx, cy⟩

/-- Model of `getShapeConnectionPoint` (`renderer.ts`): an elbow connector yields its
own `(x, y)`; every other shape yields the named side's point. -/
def getShapeConnectionPoint (s : Shape) (side : Side) : Point :=
  match s with
  | .conn d => ⟨d.x, d.y⟩
  | .box d => sidePoint d.x d.y d.width d.height side
  | .other d => sidePoint d.x d.y d.width d.height side

/-- The parent/child edge a connector contributes in `hasGrandchildren` and
`enforceHorizontalParents`: both bindings present and both bound ids truthy
(nonempty).  No check that the ids resolve to existing shapes. -/
def presentEdge (d : ConnData) : Option (String × String) :=
  match d.startBinding, d.endBinding with
  | some sb, some eb =>
      if sb.shapeId ≠ "" && eb.shapeId ≠ "" then some (sb.shapeId, eb.shapeId)
      else none
  | _, _ => none

/-- The `childrenMap.get(pid)` of `hasGrandchildren`: end ids of connectors
whose `presentEdge` starts at `pid`, in input order. -/
def hgChildren (shapes : List Shape) (pid : String) : List String :=
  (shapeConns shapes).filterMap fun d =>
    match presentEdge d with
    | some (p, c) => if p = pid then some c else none
    | none => none

/-- Model of `hasGrandchildren` (`algorithm.ts`): true iff the queried id has a child
that itself has a child, per the `presentEdge` graph. -/
def hasGrandchildren (shapeId : String) (shapes : List Shape) : Bool :=
  let children := hgChildren shapes shapeId
  !children.isEmpty && children.any fun c => !(hgChildren shapes c).isEmpty

/-- The `parentMap.get(cid)` of `enforceHorizontalParents`: successive
`Map.set` keeps the last connector binding `cid` as its end. -/
def ehpParentOf (shapes : List Shape) (cid : String) : Option String :=
  (shapeConns shapes).foldl
    (fun acc d =>
      match presentEdge d with
      | some (p, c) => if c = cid then some p else acc
      | none => acc)
    none

/-- One demotion step of `enforceHorizontalParents`: at the first shape whose
id is `pid` (`findIndex`), if it is a box with `childLayout = vertical`, set
it to horizontal. -/
def demoteFirstAt : List Shape → String → List Shape
  | [], _ => []
  | s :: rest, pid =>
    if s.id = pid then
      (match s with
       | .box d =>
         if d.childLayout = .vertical then Shape.box { d with childLayout := .horizontal }
         else s
       | _ => s) :: rest
    else s :: demoteFirstAt rest pid

/-- The `while (parentId)` loop of `enforceHorizontalParents`.  The parent map
is read from the untouched `shapes0`; the accumulator starts at
`[...shapes]`.  The guard `currentId !== newChildId` skips the demotion on the
very first iteration.  Fuel exhausted (`none`) models the infinite loop the
source would run on a cyclic parent chain. -/
def ehpLoop (shapes0 : List Shape) (newChildId : String) :
    Nat → String → List Shape → Option (List Shape)
  | 0, _, _ => none
  | fuel + 1, currentId, acc =>
    match ehpParentOf shapes0 currentId with
    | none => some acc
    | some pid =>
      ehpLoop shapes0 newChildId fuel pid
        (if currentId ≠ newChildId then demoteFirstAt acc pid else acc)

/-- Model of `enforceHorizontalParents` (`algorithm.ts` / `store/shapes.ts`). -/
def enforceHorizontalParents (fuel : Nat) (newChildId : String)
    (shapes : List Shape) : Option (List Shape) :=
  ehpLoop shapes newChildId fuel newChildId shapes

/-- The `boxMap.get(i)` existence test used by `buildGraph`. -/
def isBoxId (boxes : List BoxData) (i : String) : Bool :=
  boxes.any fun b => b.id = i

/-- The edge a connector contributes in `buildGraph`: both bindings present
and both bound ids resolving to boxes of the set. -/
def graphEdge (boxes : List BoxData) (d : ConnData) : Option (String × String) :=
  match d.startBinding, d.endBinding with
  | some sb, some eb =>
      if isBoxId boxes sb.shapeId && isBoxId boxes eb.shapeId then
        some (sb.shapeId, eb.shapeId)
      else none
  | _, _ => none

/-- The `childrenMap.get(pid)` of `buildGraph`: children pushed in connector
order. -/
def graphChildren (boxes : List BoxData) (conns : List ConnData) (pid : String) :
    List String :=
  conns.filterMap fun d =>
    match graphEdge boxes d with
    | some (p, c) => if p = pid then some c else none
    | none => none

/-- The `parentMap.has(cid)` of `buildGraph`. -/
def graphHasParent (boxes : List BoxData) (conns : List ConnData) (cid : String) :
    Bool :=
  conns.any fun d =>
    match graphEdge boxes d with
    | some (_, c) => c = cid
    | none => false

/-- Sequentially compute a value for every child, in order, propagating
non-termination (`none`) of any child (`childrenIds.map(childId => ...)`
applied to a fallible recursion). -/
def dimsList (recurse : String → Option (Rat × Rat)) :
    List String → Option (List (Rat × Rat))
  | [] => some []
  | c :: rest =>
    match recurse c with
    | none => none
    | some d =>
      match dimsList recurse rest with
      | none => none
      | some ds => some (d :: ds)

/-- Model of `calculateSubtreeDimensions` (`algorithm.ts`).  Returns
`(subtree width, subtree height)`.  The recursion has no visited set; fuel
exhaustion (`none`) models the stack overflow the source runs into on a
cyclic `childrenMap`.  A node id not found among the boxes yields `(0, 0)`
(unreachable from `layoutShapesByLevel`, whose graph only contains box ids). -/
def subtreeDims (boxes : List BoxData) (conns : List ConnData)
    (params : LayoutParams) : Nat → String → Option (Rat × Rat)
  | 0, _ => none
  | fuel + 1, nodeId =>
    match boxes.find? (fun b => b.id = nodeId) with
    | none => some (0, 0)
    | some node =>
      match graphChildren boxes conns nodeId with
      | [] => some (node.width, node.height)
      | _ :: _ =>
        let cids := graphChildren boxes conns nodeId
        match dimsList (subtreeDims boxes conns params fuel) cids with
        | none => none
        | some dims =>
          if node.childLayout = .vertical then
            let maxChildWidth :=
              if dims.length > 0 then listMax (dims.map Prod.fst) else 0
            let totalChildrenHeight :=
              (dims.map Prod.snd).sum + ((dims.length - 1 : Nat) : Rat) * params.shapeGap
            let halfParent := node.width / 2
            let rightExtent :=
              if dims.length > 0 then params.verticalIndent + maxChildWidth else halfParent
            let maxExtent := max halfParent rightExtent
            some (maxExtent * 2,
              node.height +
                (if dims.length > 0 then params.levelHeight / 2 + totalChildrenHeight else 0))
          else
            let totalChildrenWidth :=
              (dims.map Prod.fst).sum + ((dims.length - 1 : Nat) : Rat) * params.shapeGap
            some (max node.width totalChildrenWidth,
              node.height + params.levelHeight +
                (if dims.length > 0 then listMax (dims.map Prod.snd) else 0))

/-- The mutable `result`/`visited` pair threaded through
`layoutTreeRecursive`. -/
structure PlaceState where
  result : List Shape
  visited : List String
deriving DecidableEq, Repr

/-- The vertical-children loop of `layoutTreeRecursive`: iterate
`(childId, dim)` pairs; a missing dim is skipped (`continue`, without
advancing `currentChildY`); otherwise recurse at the shared `childStartX`
and advance `currentChildY` by `dim.height + shapeGap`. -/
def placeV (recurse : String → Rat → Rat → Rat → PlaceState → Option PlaceState)
    (gap childStartX : Rat) :
    List (String × Option (Rat × Rat)) → Rat → PlaceState → Option PlaceState
  | [], _, st => some st
  | (_, none) :: rest, cy, st => placeV recurse gap childStartX rest cy st
  | (cid, some d) :: rest, cy, st =>
    match recurse cid childStartX cy d.1 st with
    | none => none
    | some st' => placeV recurse gap childStartX rest (cy + d.2 + gap) st'

/-- The horizontal-children loop of `layoutTreeRecursive`: iterate
`(childId, dim)` pairs; a missing dim is skipped; otherwise recurse at the
running `currentChildX` (fixed `childY`) and advance by
`dim.width + shapeGap`. -/
def placeH (recurse : String → Rat → Rat → Rat → PlaceState → Option PlaceState)
    (gap childY : Rat) :
    List (String × Option (Rat × Rat)) → Rat → PlaceState → Option PlaceState
  | [], _, st => some st
  | (_, none) :: rest, cx, st => placeH recurse gap childY rest cx st
  | (cid, some d) :: rest, cx, st =>
    match recurse cid cx childY d.1 st with
    | none => none
    | some st' => placeH recurse gap childY rest (cx + d.1 + gap) st'

/-- Model of `layoutTreeRecursive` (`algorithm.ts`).  `childrenOf` is the
`childrenMap`, `dims` the `layoutData` filled by the sizing pass.  The node
is centered in its `availableWidth` allocation; its `level` is recomputed
from the final y.  Fuel exhaustion models unbounded recursion depth. -/
def ltr (boxes : List BoxData) (childrenOf : String → List String)
    (dims : String → Option (Rat × Rat)) (params : LayoutParams) :
    Nat → String → Rat → Rat → Rat → PlaceState → Option PlaceState
  | 0, _, _, _, _, _ => none
  | fuel + 1, nodeId, x, y, aw, st =>
    if st.visited.contains nodeId then some st
    else
      let st1 : PlaceState := ⟨st.result, nodeId :: st.visited⟩
      match boxes.find? (fun b => b.id = nodeId) with
      | none => some st1
      | some node =>
        let nodeX := x + (aw - node.width) / 2
        let placed : BoxData :=
          { node with x := nodeX, y := y, level := jsRound ((y - 40) / params.levelHeight) }
        let st2 : PlaceState := ⟨st1.result ++ [Shape.box placed], st1.visited⟩
        match childrenOf nodeId with
        | [] => some st2
        | cids@(_ :: _) =>
          let cdims := cids.map dims
          if node.childLayout = .vertical then
            let parentCenterX := nodeX + node.width / 2
            let maxChildWidth :=
              listMax (cdims.map fun o => (o.map Prod.fst).getD 0)
            let childStartX := parentCenterX - maxChildWidth / 2
            placeV (ltr boxes childrenOf dims params fuel) params.shapeGap childStartX
              (cids.zip cdims) (y + node.height + params.levelHeight) st2
          else
            let totalChildrenWidth :=
              (cdims.map fun o => (o.map Prod.fst).getD 0).sum +
                ((cdims.length - 1 : Nat) : Rat) * params.shapeGap
            let startCX := if totalChildrenWidth < aw then x + (aw - totalChildrenWidth) / 2 else x
            placeH (ltr boxes childrenOf dims params fuel) params.shapeGap
              (y + params.levelHeight + node.height) (cids.zip cdims) startCX st2

/-- Strictly-before comparison used to sort the roots:
`(a, b) => a.x - b.x || a.id.localeCompare(b.id)`. -/
def rootLT (a b : BoxData) : Bool :=
  a.x < b.x || (a.x = b.x && a.id < b.id)

/-- Stable insertion into a root list sorted by `rootLT`. -/
def insertRoot (a : BoxData) : List BoxData → List BoxData
  | [] => [a]
  | b :: rest => if rootLT a b then a :: b :: rest else b :: insertRoot a rest

/-- Stable sort of the roots by `(x, id)`. -/
def sortRoots (l : List BoxData) : List BoxData :=
  l.foldl (fun acc a => insertRoot a acc) []

/-- Steps 1–2 of `layoutShapesByLevel`: the root set (boxes without a parent,
falling back to `boxes[0]` when empty), sorted by `(x, id)`. -/
def rootsOf (boxes : List BoxData) (conns : List ConnData) : List BoxData :=
  let roots0 := boxes.filter fun b => !graphHasParent boxes conns b.id
  sortRoots (if roots0.isEmpty then boxes.take 1 else roots0)

/-- Pair each root with its subtree dimensions, in order, propagating
non-termination of any sizing pass. -/
def forestList (dimOf : String → Option (Rat × Rat)) :
    List BoxData → Option (List (BoxData × Rat × Rat))
  | [] => some []
  | r :: rest =>
    match dimOf r.id with
    | none => none
    | some d =>
      match forestList dimOf rest with
      | none => none
      | some fs => some ((r, d) :: fs)

/-- The `forestData` of `layoutShapesByLevel`: each sorted root paired with
its subtree dimensions. -/
def forestOf (boxes : List BoxData) (conns : List ConnData) (params : LayoutParams)
    (fuel : Nat) : Option (List (BoxData × Rat × Rat)) :=
  forestList (subtreeDims boxes conns params fuel) (rootsOf boxes conns)

/-- Model of `totalForestWidth`: root subtree widths summed, plus
`(forestData.length - 1) * shapeGap`. -/
def forestTotalWidth (params : LayoutParams) (forest : List (BoxData × Rat × Rat)) : Rat :=
  (forest.map fun f => f.2.1).sum + ((forest.length : Int) - 1 : Int) * params.shapeGap

/-- Model of `maxForestHeight = Math.max(...heights)` (the forest is nonempty whenever
this is evaluated). -/
def forestMaxHeight (forest : List (BoxData × Rat × Rat)) : Rat :=
  listMax (forest.map fun f => f.2.2)

/-- Model of `startX = (canvasWidth - totalForestWidth) / 2`. -/
def forestStartX (canvasWidth : Rat) (params : LayoutParams)
    (forest : List (BoxData × Rat × Rat)) : Rat :=
  (canvasWidth - forestTotalWidth params forest) / 2

/-- Model of `startY = Math.max(40, (canvasHeight - maxForestHeight) / 2)`. -/
def forestStartY (canvasHeight : Rat) (forest : List (BoxData × Rat × Rat)) : Rat :=
  max 40 ((canvasHeight - forestMaxHeight forest) / 2)

/-- Step 5 of `layoutShapesByLevel`: lay out each root tree at the running
`currentForestX`, advancing by `dim.width + shapeGap`. -/
def placeForest (recurse : String → Rat → Rat → Rat → PlaceState → Option PlaceState)
    (params : LayoutParams) :
    List (BoxData × Rat × Rat) → Rat → Rat → PlaceState → Option PlaceState
  | [], _, _, st => some st
  | (r, w, _) :: rest, curX, startY, st =>
    match recurse r.id curX startY w st with
    | none => none
    | some st' => placeForest recurse params rest (curX + w + params.shapeGap) startY st'

/-- Model of `layoutShapesByLevel` (`algorithm.ts`): filter the shapes, build the
graph, find and sort the roots, size the forest, center it on the canvas,
place every tree, append unvisited boxes unmodified, and return
boxes ++ connectors ++ others. -/
def layoutShapesByLevel (fuel : Nat) (shapes : List Shape)
    (canvasWidth canvasHeight : Rat) (params : LayoutParams) : Option (List Shape) :=
  let boxes := shapeBoxes shapes
  let conns := shapeConns shapes
  if boxes.isEmpty then some shapes
  else
    match forestOf boxes conns params fuel with
    | none => none
    | some forest =>
      let startX := forestStartX canvasWidth params forest
      let startY := forestStartY canvasHeight forest
      match placeForest
          (ltr boxes (graphChildren boxes conns) (subtreeDims boxes conns params fuel) params fuel)
          params forest startX startY ⟨[], []⟩ with
      | none => none
      | some st =>
        let unvisited := boxes.filter fun b => !st.visited.contains b.id
        some (st.result ++ unvisited.map Shape.box ++
          shapes.filter Shape.isConn ++ shapeOthers shapes)

/-- Model of the `new Map(shapes.map(s => [s.id, s]))` lookup: with duplicate ids the last
occurrence wins, hence the reversed search. -/
def lookupShape (shapes : List Shape) (i : String) : Option Shape :=
  shapes.reverse.find? fun s => s.id = i

/-- Model of `updateSingleConnector` (`algorithm.ts`): recompute the endpoints from
the bindings (when the bound shape resolves), derive `startDirection` from
the bound side — or, with no start binding at all, from the dominant axis of
the (updated) endpoints — and set the bounding `(x, y)` to the componentwise
minimum of the endpoints.  Non-connector shapes are returned unchanged. -/
def updateSingleConnector (shapeMapSrc : List Shape) (s : Shape) : Shape :=
  match s with
  | .conn d =>
    let startUpd :=
      match d.startBinding with
      | some b =>
        match lookupShape shapeMapSrc b.shapeId with
        | some bound =>
          (getShapeConnectionPoint bound b.side,
            if b.side == Side.top || b.side == Side.bottom then Dir.vertical
            else Dir.horizontal)
        | none => (d.startPoint, d.startDirection)
      | none => (d.startPoint, d.startDirection)
    let sp := startUpd.1
    let ep :=
      match d.endBinding with
      | some b =>
        match lookupShape shapeMapSrc b.shapeId with
        | some bound => getShapeConnectionPoint bound b.side
        | none => d.endPoint
      | none => d.endPoint
    let sd :=
      match d.startBinding with
      | none =>
        if |ep.y - sp.y| > |ep.x - sp.x| then Dir.vertical else Dir.horizontal
      | some _ => startUpd.2
    Shape.conn { d with
      startPoint := sp, endPoint := ep, startDirection := sd,
      x := min sp.x ep.x, y := min sp.y ep.y }
  | s => s

/-- Model of `updateAllConnectors` (`algorithm.ts`): map `updateSingleConnector` over
the shapes, resolving bindings against the input shape list. -/
def updateAllConnectors (shapes : List Shape) : List Shape :=
  shapes.map (updateSingleConnector shapes)

/-- Model of `getElbowPath` (connector renderer): the generated orthogonal polyline,
as its corner points (the source renders these as an SVG `M`/`L` path
string).  Vertical start with an end binding bound to side left/right takes
the jogged-spine branch (`spineOffset = verticalDrop = 20`); otherwise the
standard 3-point elbow through the midpoint. -/
def getElbowPathPoints (d : ConnData) : List Point :=
  let s := d.startPoint
  let e := d.endPoint
  if d.startDirection = .vertical then
    if (match d.endBinding with
        | some b => b.side == Side.left || b.side == Side.right
        | none => false) then
      let spineOffset : Rat := 20
      let verticalDrop : Rat := 20
      let spineX :=
        match d.endBinding with
        | some b => if b.side == Side.left then e.x - spineOffset else e.x + spineOffset
        | none => e.x
      let jogY := s.y + verticalDrop
      [s, ⟨s.x, jogY⟩, ⟨spineX, jogY⟩, ⟨spineX, e.y⟩, e]
    else
      let midY := (s.y + e.y) / 2
      [s, ⟨s.x, midY⟩, ⟨e.x, midY⟩, e]
  else
    let midX := (s.x + e.x) / 2
    [s, ⟨midX, s.y⟩, ⟨midX, e.y⟩, e]

/-- Model of `createRectangle(0, 0, level)` (`shapes/types`): a fresh 140×50 rectangle
at the origin.  `createId()` draws a random id; the id is passed in
explicitly here.  A fresh rectangle has no `childLayout` field, which
behaves as horizontal. -/
def createRectangle (i : String) (x y : Rat) (level : Int) : BoxData :=
  { kind := .rectangle, id := i, x := x, y := y, width := 140, height := 50,
    level := level, childLayout := .horizontal }

/-- The `addChild` store action (`store/shapes.ts`): create a child rectangle
one level below `shapeId`, connect `shapeId`'s bottom to the child's top
(left when the parent is a vertical stack), lay out, enforce the
no-grandchildren constraint for the new child, lay out again, and resolve
all connectors.  `newBoxId`/`newConnId` stand for the two `createId()`
draws.  Returns the input unchanged when `shapeId` is not a box; `none`
models non-termination of a layout or enforcement pass. -/
def addChild (fuel : Nat) (newBoxId newConnId : String) (shapeId : String)
    (shapes : List Shape) (canvasWidth canvasHeight : Rat)
    (params : LayoutParams) : Option (List Shape) :=
  match shapes.find? (fun s => s.id = shapeId) with
  | some (Shape.box current) =>
    let childBox := createRectangle newBoxId 0 0 (current.level + 1)
    let childSide : Side := if current.childLayout = .vertical then .left else .top
    let connector : ConnData :=
      { id := newConnId, x := 0, y := 0,
        startPoint := ⟨0, 0⟩, endPoint := ⟨0, 0⟩,
        startDirection := .vertical,
        startBinding := some ⟨current.id, .bottom⟩,
        endBinding := some ⟨childBox.id, childSide⟩,
        startArrowhead := .none, endArrowhead := .none }
    let newShapes := shapes ++ [Shape.box childBox, Shape.conn connector]
    match layoutShapesByLevel fuel newShapes canvasWidth canvasHeight params with
    | none => none
    | some layouted =>
      match enforceHorizontalParents fuel childBox.id layouted with
      | none => none
      | some enforced =>
        match layoutShapesByLevel fuel enforced canvasWidth canvasHeight params with
        | none => none
        | some enforcedLayouted => some (updateAllConnectors enforcedLayouted)
  | _ => some shapes

/-! ## Specification-side definitions

Definitions used only to state properties of the embedding above. -/

/-- The successive parents of a node in the `enforceHorizontalParents` parent
map: `[parent cur, parent (parent cur), ...]`, stopping when the map has no
entry (or when `fuel` runs out, which cannot happen on a chain the source
terminates on). -/
def ancestors (shapes : List Shape) : Nat → String → List String
  | 0, _ => []
  | fuel + 1, cur =>
    match ehpParentOf shapes cur with
    | none => []
    | some p => p :: ancestors shapes fuel p

/-- The ids `enforceHorizontalParents` attempts to demote, in loop order:
the parent found at each iteration whose `currentId` differs from the new
child. -/
def walkDemote (shapes : List Shape) (newChildId : String) :
    Nat → String → List String
  | 0, _ => []
  | fuel + 1, cur =>
    match ehpParentOf shapes cur with
    | none => []
    | some p =>
      (if cur ≠ newChildId then [p] else []) ++ walkDemote shapes newChildId fuel p

/-- Fold `demoteFirstAt` over a list of ids. -/
def demoteList : List Shape → List String → List Shape
  | acc, [] => acc
  | acc, i :: rest => demoteList (demoteFirstAt acc i) rest

/-- Demote a single shape: a box with `childLayout = vertical` becomes
horizontal; anything else is unchanged. -/
def demoteShape (s : Shape) : Shape :=
  match s with
  | .box d =>
    if d.childLayout = .vertical then Shape.box { d with childLayout := .horizontal }
    else s
  | _ => s

/-- The row of placed leaf children of a vertical-layout node: every child
sits at the shared `childStartX`, and y advances by the previous child's
height plus `shapeGap`. -/
def verticalLeafRow (boxes : List BoxData) (params : LayoutParams) (childStartX : Rat) :
    List String → Rat → List Shape
  | [], _ => []
  | c :: rest, cy =>
    match boxes.find? (fun b => b.id = c) with
    | none => verticalLeafRow boxes params childStartX rest cy
    | some cb =>
      Shape.box { cb with
                    x := childStartX
                    y := cy
                    level := jsRound ((cy - 40) / params.levelHeight) } ::
        verticalLeafRow boxes params childStartX rest (cy + cb.height + params.shapeGap)

/-- A shape that is some input box repositioned (only `x`, `y`, `level`
changed). -/
def placedFrom (boxes : List BoxData) (s : Shape) : Prop :=
  ∃ b nx ny lv, b ∈ boxes ∧ s = Shape.box { b with x := nx, y := ny, level := lv }

/-- A placement routine only ever appends repositioned input boxes to the
result. -/
def RecFrame (boxes : List BoxData)
    (recurse : String → Rat → Rat → Rat → PlaceState → Option PlaceState) : Prop :=
  ∀ nodeId x y aw st st', recurse nodeId x y aw st = some st' →
    ∃ tail, st'.result = st.result ++ tail ∧ ∀ s ∈ tail, placedFrom boxes s

/-- No connector binding of the set resolves to an elbow connector (the
hypothesis under which connector resolution is idempotent). -/
def noConnectorBindings (shapes : List Shape) : Prop :=
  ∀ d, Shape.conn d ∈ shapes →
    ∀ b, (d.startBinding = some b ∨ d.endBinding = some b) →
      ∀ t, lookupShape shapes b.shapeId = some t → t.isConn = false

/-! ## Concrete fixtures -/

/-- A concrete rectangle shape. -/
def sampleBox (i : String) (x y w h : Rat) (lv : Int) (cl : ChildLayout) : Shape :=
  Shape.box { kind := .rectangle, id := i, x := x, y := y, width := w, height := h,
              level := lv, childLayout := cl }

/-- A concrete fully-bound connector shape. -/
def sampleConn (i p c : String) (ps cs : Side) : Shape :=
  Shape.conn { id := i, x := 0, y := 0, startPoint := ⟨0, 0⟩, endPoint := ⟨0, 0⟩,
               startDirection := .vertical, startBinding := some ⟨p, ps⟩,
               endBinding := some ⟨c, cs⟩, startArrowhead := .none,
               endArrowhead := .none }

/-- A vertical-stack parent with one 60-wide leaf child. -/
def vStackShapes : List Shape :=
  [sampleBox "P" 0 0 100 50 0 .vertical, sampleBox "C" 0 100 60 30 1 .horizontal,
   sampleConn "k1" "P" "C" .bottom .left]

/-- The chain root → A (vertical stack) → B of the vertical-stack-constraint
scenario. -/
def chainShapes : List Shape :=
  [sampleBox "root" 0 0 140 50 0 .horizontal, sampleBox "A" 0 100 140 50 1 .vertical,
   sampleBox "B" 40 200 140 50 2 .horizontal,
   sampleConn "k1" "root" "A" .bottom .top, sampleConn "k2" "A" "B" .bottom .left]

/-- The shape set after `addChild("B")` on `chainShapes` (new ids `"Cnew"`
for the box and `"k3"` for the connector). -/
def chainResult : List Shape :=
  (addChild 30 "Cnew" "k3" "B" chainShapes 1200 800 defaultLayoutParams).getD []

/-- A pure 3-cycle A → B → Cc → A. -/
def cycleShapes : List Shape :=
  [sampleBox "A" 0 0 140 50 0 .horizontal, sampleBox "B" 10 0 140 50 0 .horizontal,
   sampleBox "Cc" 20 0 140 50 0 .horizontal,
   sampleConn "k1" "A" "B" .bottom .top, sampleConn "k2" "B" "Cc" .bottom .top,
   sampleConn "k3" "Cc" "A" .bottom .top]

/-- One box plus two connectors whose bindings name boxes that do not exist
(`"G"`, `"H"`). -/
def danglingShapes : List Shape :=
  [sampleBox "A" 0 0 140 50 0 .horizontal,
   sampleConn "k1" "A" "G" .bottom .top, sampleConn "k2" "G" "H" .bottom .top]

/-- An unbound connector whose stored `(x, y)` disagrees with the minimum of
its endpoints. -/
def driftConn : Shape :=
  Shape.conn
    { id := "K2", x := 5, y := 5, startPoint := ⟨0, 0⟩, endPoint := ⟨10, 10⟩,
      startDirection := .horizontal, startBinding := none, endBinding := none,
      startArrowhead := .none, endArrowhead := .none }

/-- A connector whose start is bound to the connector `"K2"`. -/
def boundToConn : Shape :=
  Shape.conn
    { id := "K1", x := 0, y := 0, startPoint := ⟨50, 50⟩, endPoint := ⟨100, 100⟩,
      startDirection := .horizontal, startBinding := some ⟨"K2", .top⟩,
      endBinding := none, startArrowhead := .none, endArrowhead := .none }

/-- The connector-to-connector binding set on which resolution is not
idempotent. -/
def connPairShapes : List Shape := [driftConn, boundToConn]

/-- A free connector listed before a box: layout moves the box in front. -/
def boxAfterConnShapes : List Shape :=
  [Shape.conn
     { id := "K", x := 0, y := 0, startPoint := ⟨0, 0⟩, endPoint := ⟨10, 0⟩,
       startDirection := .horizontal, startBinding := none, endBinding := none,
       startArrowhead := .none, endArrowhead := .none },
   sampleBox "B" 0 0 140 50 0 .horizontal]

/-- A jogged-spine connector: vertical start, end bound to a left side. -/
def spineConn : ConnData :=
  { id := "j", x := 0, y := 0, startPoint := ⟨100, 200⟩, endPoint := ⟨160, 300⟩,
    startDirection := .vertical, startBinding := some ⟨"p", Side.bottom⟩,
    endBinding := some ⟨"c", Side.left⟩, startArrowhead := .none,
    endArrowhead := .none }

/-- The box data of the vertical-stack parent `"P"` of `vStackShapes`. -/
def pBoxData : BoxData :=
  { kind := .rectangle, id := "P", x := 0, y := 0, width := 100, height := 50,
    level := 0, childLayout := .vertical }

/-- The box data of the leaf child `"C"` of `vStackShapes`. -/
def cBoxData : BoxData :=
  { kind := .rectangle, id := "C", x := 0, y := 100, width := 60, height := 30,
    level := 1, childLayout := .horizontal }

/-- A four-box parent chain D → Bp → Ap → Rt (each connector points from the
parent's bottom to the child's top), with `Bp`, `Ap` and `Rt` all vertical
stacks. -/
def deepChainShapes : List Shape :=
  [sampleBox "Rt" 0 0 140 50 0 .vertical, sampleBox "Ap" 0 100 140 50 1 .vertical,
   sampleBox "Bp" 0 200 140 50 2 .vertical, sampleBox "D" 0 300 140 50 3 .horizontal,
   sampleConn "k1" "Rt" "Ap" .bottom .top, sampleConn "k2" "Ap" "Bp" .bottom .top,
   sampleConn "k3" "Bp" "D" .bottom .top]

/-- A box plus a connector whose only binding resolves to that box. -/
def boxBoundShapes : List Shape :=
  [sampleBox "A" 0 0 140 50 0 .horizontal,
   Shape.conn
     { id := "K", x := 0, y := 0, startPoint := ⟨0, 0⟩, endPoint := ⟨33, 44⟩,
       startDirection := .horizontal, startBinding := some ⟨"A", .bottom⟩,
       endBinding := none, startArrowhead := .none, endArrowhead := .none }]

/-- The state produced by running the placement pass on `vStackShapes`
from the origin with allocation width 160. -/
def vStackPlaced : PlaceState :=
  ⟨[Shape.box { pBoxData with x := 30, y := 0, level := -1 },
    Shape.box { cBoxData with x := 50, y := 90, level := 1 }], ["C", "P"]⟩

/-! ## Theorems -/

/-- C9: for every connector with `startDirection = vertical` and an end
binding whose side is left or right, the generated orthogonal path has
exactly 4 segments (5 corner points): from the start point it drops
`verticalDrop = 20` units to a jog row, runs horizontally to a point
`spineOffset = 20` units outside the child's bound side, drops vertically to
the end point's row, then runs horizontally in to the end point. -/
theorem c9_jogged_spine_path (d : ConnData) (b : Binding)
    (hdir : d.startDirection = Dir.vertical)
    (hb : d.endBinding = some b)
    (hside : b.side = Side.left ∨ b.side = Side.right) :
    getElbowPathPoints d =
      [d.startPoint,
       ⟨d.startPoint.x, d.startPoint.y + 20⟩,
       ⟨if b.side = Side.left then d.endPoint.x - 20 else d.endPoint.x + 20,
         d.startPoint.y + 20⟩,
       ⟨if b.side = Side.left then d.endPoint.x - 20 else d.endPoint.x + 20,
         d.endPoint.y⟩,
       d.endPoint] ∧
      (getElbowPathPoints d).length = 5 := by
  have hp : getElbowPathPoints d =
      [d.startPoint,
       ⟨d.startPoint.x, d.startPoint.y + 20⟩,
       ⟨if b.side = Side.left then d.endPoint.x - 20 else d.endPoint.x + 20,
         d.startPoint.y + 20⟩,
       ⟨if b.side = Side.left then d.endPoint.x - 20 else d.endPoint.x + 20,
         d.endPoint.y⟩,
       d.endPoint] := by
    unfold getElbowPathPoints
    rw [hdir, hb]
    rcases hside with h | h <;> simp [h]
  exact ⟨hp, by rw [hp]; rfl⟩

/-- C9 witness: the theorem applied to the concrete jogged-spine connector
`spineConn`, its hypotheses discharged by `decide`, and the resulting path
evaluated. -/
theorem c9_jogged_spine_path_witness :
    spineConn.startDirection = Dir.vertical ∧
    spineConn.endBinding = some ⟨"c", Side.left⟩ ∧
    getElbowPathPoints spineConn =
      [⟨100, 200⟩, ⟨100, 220⟩, ⟨140, 220⟩, ⟨140, 300⟩, ⟨160, 300⟩] := by
  refine ⟨rfl, rfl, ?_⟩
  have h := c9_jogged_spine_path spineConn ⟨"c", Side.left⟩ rfl rfl (Or.inl rfl)
  rw [h.1]
  decide

/-- C3 counterexample: in the chain root → A (vertical) → B, after
`addChild` under B (which runs layout, constraint enforcement, layout, and
connector resolution), `hasGrandchildren "A"` returns `true` on the
resulting shape set — not `false` as the claim states — because
`hasGrandchildren` is a structural query that ignores `childLayout`. -/
theorem c3_add_child_counterexample :
    addChild 30 "Cnew" "k3" "B" chainShapes 1200 800 defaultLayoutParams =
      some chainResult ∧
    hasGrandchildren "A" chainResult = true := by
  constructor
  · decide
  · decide

/-- C3 amended: in the chain root → A (vertical) → B, `addChild` under B
does flip A's `childLayout` to horizontal, and `hasGrandchildren "A"`
returns `true` on the resulting shape set (A now structurally has a
grandchild; the query does not depend on `childLayout`). -/
theorem c3_add_child_flips_parent :
    addChild 30 "Cnew" "k3" "B" chainShapes 1200 800 defaultLayoutParams =
      some chainResult ∧
    ((shapeBoxes chainResult).find? (fun b => b.id = "A")).map
        (fun b => b.childLayout) = some ChildLayout.horizontal ∧
    hasGrandchildren "A" chainResult = true := by
  refine ⟨by decide, by decide, by decide⟩

/-- C4 counterexample: with one box `"A"` and connectors `A → G`, `G → H`
whose bound ids `"G"`, `"H"` resolve to no box, the claim says no edge is
contributed to any of the derived graphs; but `hasGrandchildren "A"` is
`true` and the `enforceHorizontalParents` parent map maps `"G"` to `"A"`,
while only `buildGraph` (used by layout) drops the dangling edges. -/
theorem c4_dangling_binding_counterexample :
    hasGrandchildren "A" danglingShapes = true ∧
    graphChildren (shapeBoxes danglingShapes) (shapeConns danglingShapes) "A" = [] ∧
    ehpParentOf danglingShapes "G" = some "A" ∧
    isBoxId (shapeBoxes danglingShapes) "G" = false ∧
    isBoxId (shapeBoxes danglingShapes) "H" = false := by
  refine ⟨by decide, by decide, by decide, by decide, by decide⟩

/-- On the pure 3-cycle, the sizing recursion of
`calculateSubtreeDimensions` never terminates: it returns `none` for every
fuel at each of the three boxes (the recursion A → B → Cc → A has no visited
set). -/
theorem cycle_dims_none : ∀ fuel,
    subtreeDims (shapeBoxes cycleShapes) (shapeConns cycleShapes)
        defaultLayoutParams fuel "A" = none ∧
    subtreeDims (shapeBoxes cycleShapes) (shapeConns cycleShapes)
        defaultLayoutParams fuel "B" = none ∧
    subtreeDims (shapeBoxes cycleShapes) (shapeConns cycleShapes)
        defaultLayoutParams fuel "Cc" = none := by
  intro fuel
  induction fuel with
  | zero => exact ⟨rfl, rfl, rfl⟩
  | succ f ih =>
    have hgA : graphChildren (shapeBoxes cycleShapes) (shapeConns cycleShapes) "A" =
        ["B"] := by decide
    have hgB : graphChildren (shapeBoxes cycleShapes) (shapeConns cycleShapes) "B" =
        ["Cc"] := by decide
    have hgC : graphChildren (shapeBoxes cycleShapes) (shapeConns cycleShapes) "Cc" =
        ["A"] := by decide
    have hfA : (shapeBoxes cycleShapes).find? (fun b => b.id = "A") =
        some { kind := .rectangle, id := "A", x := 0, y := 0, width := 140,
               height := 50, level := 0, childLayout := .horizontal } := by decide
    have hfB : (shapeBoxes cycleShapes).find? (fun b => b.id = "B") =
        some { kind := .rectangle, id := "B", x := 10, y := 0, width := 140,
               height := 50, level := 0, childLayout := .horizontal } := by decide
    have hfC : (shapeBoxes cycleShapes).find? (fun b => b.id = "Cc") =
        some { kind := .rectangle, id := "Cc", x := 20, y := 0, width := 140,
               height := 50, level := 0, childLayout := .horizontal } := by decide
    refine ⟨?_, ?_, ?_⟩ <;>
      simp only [subtreeDims, hgA, hgB, hgC, hfA, hfB, hfC, dimsList,
        ih.1, ih.2.1, ih.2.2]

/-- C7: on the fully cyclic 3-box set A → B → Cc → A, layout does pick the
first box in input order as a synthetic root, but then the sizing pass
recurses around the cycle forever (no visited set in
`calculateSubtreeDimensions`) — `layoutShapesByLevel` never returns, for any
stack budget, instead of positioning every box as the claim states. -/
theorem c7_cycle_layout_never_returns : ∀ fuel,
    layoutShapesByLevel fuel cycleShapes 1200 800 defaultLayoutParams = none := by
  intro fuel
  have hroots : rootsOf (shapeBoxes cycleShapes) (shapeConns cycleShapes) =
      [{ kind := .rectangle, id := "A", x := 0, y := 0, width := 140,
         height := 50, level := 0, childLayout := .horizontal }] := by decide
  have hne : (shapeBoxes cycleShapes).isEmpty = false := by decide
  simp only [layoutShapesByLevel, forestOf, hroots, hne, forestList,
    (cycle_dims_none fuel).1, Bool.false_eq_true, if_false]

/-- C6: for a forest of n root trees, `layoutShapesByLevel` computes the
total block width as the sum of the root subtree widths plus
(n − 1)·shapeGap, chooses `startX` so that the block `[startX, startX +
totalWidth]` has its horizontal midpoint at canvasWidth / 2, and sets the
block's top edge `startY` to max(40, (canvasHeight − tallest tree
height) / 2). -/
theorem c6_forest_centering (canvasWidth canvasHeight : Rat) (params : LayoutParams)
    (forest : List (BoxData × Rat × Rat)) (_hne : forest ≠ []) :
    forestTotalWidth params forest =
      (forest.map fun f => f.2.1).sum + ((forest.length : Rat) - 1) * params.shapeGap ∧
    forestStartX canvasWidth params forest + forestTotalWidth params forest / 2 =
      canvasWidth / 2 ∧
    forestStartY canvasHeight forest =
      max 40 ((canvasHeight - forestMaxHeight forest) / 2) := by
  refine ⟨?_, ?_, rfl⟩
  · unfold forestTotalWidth
    push_cast
    ring
  · unfold forestStartX
    ring

/-- C6 witness: a concrete two-tree forest (widths 300 and 140, heights 50
and 90) with the default parameters: total width 460, and the block midpoint
equation instantiated at a 1200 × 800 canvas. -/
theorem c6_forest_centering_witness :
    ([({ kind := .rectangle, id := "r1", x := 0, y := 0, width := 140, height := 50,
         level := 0, childLayout := .horizontal }, (300 : Rat), (50 : Rat)),
      ({ kind := .rectangle, id := "r2", x := 400, y := 0, width := 140, height := 50,
         level := 0, childLayout := .horizontal }, (140 : Rat), (90 : Rat))] ≠
      ([] : List (BoxData × Rat × Rat))) ∧
    forestTotalWidth defaultLayoutParams
      [({ kind := .rectangle, id := "r1", x := 0, y := 0, width := 140, height := 50,
          level := 0, childLayout := .horizontal }, (300 : Rat), (50 : Rat)),
       ({ kind := .rectangle, id := "r2", x := 400, y := 0, width := 140, height := 50,
          level := 0, childLayout := .horizontal }, (140 : Rat), (90 : Rat))] = 460 ∧
    forestStartX 1200 defaultLayoutParams
        [({ kind := .rectangle, id := "r1", x := 0, y := 0, width := 140, height := 50,
            level := 0, childLayout := .horizontal }, (300 : Rat), (50 : Rat)),
         ({ kind := .rectangle, id := "r2", x := 400, y := 0, width := 140, height := 50,
            level := 0, childLayout := .horizontal }, (140 : Rat), (90 : Rat))] +
      (460 : Rat) / 2 = 600 ∧
    forestStartY 800
        [({ kind := .rectangle, id := "r1", x := 0, y := 0, width := 140, height := 50,
            level := 0, childLayout := .horizontal }, (300 : Rat), (50 : Rat)),
         ({ kind := .rectangle, id := "r2", x := 400, y := 0, width := 140, height := 50,
            level := 0, childLayout := .horizontal }, (140 : Rat), (90 : Rat))] = 355 := by
  have h := c6_forest_centering 1200 800 defaultLayoutParams
    [({ kind := .rectangle, id := "r1", x := 0, y := 0, width := 140, height := 50,
        level := 0, childLayout := .horizontal }, (300 : Rat), (50 : Rat)),
     ({ kind := .rectangle, id := "r2", x := 400, y := 0, width := 140, height := 50,
        level := 0, childLayout := .horizontal }, (140 : Rat), (90 : Rat))]
    (by decide)
  refine ⟨by decide, by decide, ?_, by decide⟩
  have h2 := h.2.1
  have hw : forestTotalWidth defaultLayoutParams
      [({ kind := .rectangle, id := "r1", x := 0, y := 0, width := 140, height := 50,
          level := 0, childLayout := .horizontal }, (300 : Rat), (50 : Rat)),
       ({ kind := .rectangle, id := "r2", x := 400, y := 0, width := 140, height := 50,
          level := 0, childLayout := .horizontal }, (140 : Rat), (90 : Rat))] = 460 := by
    decide
  rw [hw] at h2
  rw [h2]
  decide

/-- The helper `dimsList` returns one dimension pair per child. -/
theorem dimsList_length (recurse : String → Option (Rat × Rat)) :
    ∀ cids dims, dimsList recurse cids = some dims → dims.length = cids.length := by
  intro cids
  induction cids with
  | nil =>
    intro dims h
    simp only [dimsList] at h
    cases h
    rfl
  | cons c rest ih =>
    intro dims h
    simp only [dimsList] at h
    cases hc : recurse c with
    | none => rw [hc] at h; cases h
    | some d =>
      rw [hc] at h
      cases hr : dimsList recurse rest with
      | none => rw [hr] at h; cases h
      | some ds =>
        rw [hr] at h
        cases h
        simp [ih ds hr]

/-- C5: for a box with `childLayout = vertical` and a nonempty child list,
the sizing pass computes subtree width
2·max(node.width / 2, verticalIndent + max child subtree width) and subtree
height node.height + levelHeight / 2 + Σ child subtree heights +
(n − 1)·shapeGap. -/
theorem c5_vertical_sizing (boxes : List BoxData) (conns : List ConnData)
    (params : LayoutParams) (fuel : Nat) (nodeId : String) (node : BoxData)
    (cids : List String) (dims : List (Rat × Rat))
    (hfind : boxes.find? (fun b => b.id = nodeId) = some node)
    (hvert : node.childLayout = ChildLayout.vertical)
    (hcids : graphChildren boxes conns nodeId = cids)
    (hne : cids ≠ [])
    (hdims : dimsList (subtreeDims boxes conns params fuel) cids = some dims) :
    subtreeDims boxes conns params (fuel + 1) nodeId =
      some (2 * max (node.width / 2) (params.verticalIndent + listMax (dims.map Prod.fst)),
        node.height + params.levelHeight / 2 +
          ((dims.map Prod.snd).sum + ((cids.length - 1 : Nat) : Rat) * params.shapeGap)) := by
  have hlen : dims.length = cids.length := dimsList_length _ _ _ hdims
  have hpos : 0 < dims.length := by
    rw [hlen]
    cases cids with
    | nil => exact absurd rfl hne
    | cons c rest => simp
  obtain ⟨c, rest, rfl⟩ : ∃ c rest, cids = c :: rest := by
    cases cids with
    | nil => exact absurd rfl hne
    | cons c rest => exact ⟨c, rest, rfl⟩
  have hgt : (c :: rest).length > 0 := by simp
  simp only [subtreeDims, hfind, hcids, hdims, hvert, hlen, if_pos hgt, if_pos trivial,
    Option.some.injEq, Prod.mk.injEq]
  constructor
  · ring
  · ring

/-- C5 witness: the vertical sizing theorem applied to the concrete
vertical-stack parent `"P"` (100 × 50) with the single leaf child `"C"`
(60 × 30) and default parameters: subtree width 2·max(50, 20 + 60) = 160 and
subtree height 50 + 40/2 + 30 = 100. -/
theorem c5_vertical_sizing_witness :
    (shapeBoxes vStackShapes).find? (fun b => b.id = "P") = some pBoxData ∧
    pBoxData.childLayout = ChildLayout.vertical ∧
    graphChildren (shapeBoxes vStackShapes) (shapeConns vStackShapes) "P" = ["C"] ∧
    dimsList (subtreeDims (shapeBoxes vStackShapes) (shapeConns vStackShapes)
      defaultLayoutParams 5) ["C"] = some [(60, 30)] ∧
    subtreeDims (shapeBoxes vStackShapes) (shapeConns vStackShapes)
      defaultLayoutParams 6 "P" = some (160, 100) := by
  refine ⟨by decide, by decide, by decide, by decide, ?_⟩
  have h := c5_vertical_sizing (shapeBoxes vStackShapes) (shapeConns vStackShapes)
    defaultLayoutParams 5 "P" pBoxData ["C"] [(60, 30)]
    (by decide) (by decide) (by decide) (by decide) (by decide)
  rw [h]
  decide

/-- C1 counterexample: laying out the vertical-stack parent `"P"`
(100 wide) with the single 60-wide leaf child `"C"` on a 1200 × 800 canvas
places P at x = 550 (center 600) and C at x = 570 — the child's left edge
is `parentCenterX − maxChildWidth / 2`, not `verticalIndent` (20) to the
right of the parent's center, which would be 620. -/
theorem c1_vertical_indent_counterexample :
    (layoutShapesByLevel 20 vStackShapes 1200 800 defaultLayoutParams).map
        (fun out => (shapeBoxes out).map fun b => (b.id, b.x, b.y)) =
      some [("P", (550 : Rat), (350 : Rat)), ("C", 570, 440)] ∧
    (570 : Rat) ≠ 550 + 100 / 2 + defaultLayoutParams.verticalIndent := by
  exact ⟨by decide, by decide⟩

/-- Unfolding one step of `ltr` at an unvisited leaf box: the node is placed
at the center of its allocation and nothing else happens. -/
theorem ltr_leaf_step (boxes : List BoxData) (co : String → List String)
    (dims : String → Option (Rat × Rat)) (params : LayoutParams) (fuel : Nat)
    (c : String) (cb : BoxData) (cx cy aw : Rat) (st : PlaceState)
    (hvc : st.visited.contains c = false)
    (hfind : boxes.find? (fun b => b.id = c) = some cb)
    (hco : co c = []) :
    ltr boxes co dims params (fuel + 1) c cx cy aw st =
      some ⟨st.result ++
        [Shape.box { cb with
                       x := cx + (aw - cb.width) / 2
                       y := cy
                       level := jsRound ((cy - 40) / params.levelHeight) }],
        c :: st.visited⟩ := by
  simp only [ltr, hvc, hfind, hco, Bool.false_eq_true, if_false]

/-- The vertical-children loop of `ltr`, run over leaf children that are
pairwise distinct and unvisited, appends exactly the `verticalLeafRow`. -/
theorem placeV_leaf_children (boxes : List BoxData) (co : String → List String)
    (dims : String → Option (Rat × Rat)) (params : LayoutParams) (fuel : Nat)
    (cx : Rat) :
    ∀ (cids : List String) (cy : Rat) (st out : PlaceState),
      (∀ c ∈ cids, ∃ cb, boxes.find? (fun b => b.id = c) = some cb ∧
        co c = [] ∧ dims c = some (cb.width, cb.height)) →
      cids.Nodup →
      (∀ c ∈ cids, st.visited.contains c = false) →
      placeV (ltr boxes co dims params fuel) params.shapeGap cx
        (cids.zip (cids.map dims)) cy st = some out →
      out.result = st.result ++ verticalLeafRow boxes params cx cids cy ∧
      out.visited = cids.reverse ++ st.visited := by
  intro cids
  induction cids with
  | nil =>
    intro cy st out _ _ _ hrun
    simp only [List.map_nil, List.zip_nil_right, placeV] at hrun
    cases hrun
    simp [verticalLeafRow]
  | cons c rest ih =>
    intro cy st out hleaf hnd hfresh hrun
    obtain ⟨cb, hfind, hco, hdim⟩ := hleaf c (List.mem_cons_self c rest)
    simp only [List.map_cons, List.zip_cons_cons, hdim, placeV] at hrun
    cases fuel with
    | zero =>
      have h0 : ltr boxes co dims params 0 c cx cy cb.width st = none := rfl
      rw [h0] at hrun
      simp at hrun
    | succ f =>
      rw [ltr_leaf_step boxes co dims params f c cb cx cy cb.width st
        (hfresh c (List.mem_cons_self c rest)) hfind hco] at hrun
      have hnX : cx + (cb.width - cb.width) / 2 = cx := by ring
      rw [hnX] at hrun
      have hrest : ∀ c' ∈ rest,
          (PlaceState.mk (st.result ++
            [Shape.box { cb with
                           x := cx
                           y := cy
                           level := jsRound ((cy - 40) / params.levelHeight) }])
            (c :: st.visited)).visited.contains c' = false := by
        intro c' hc'
        have hne : c' ≠ c := by
          intro h
          subst h
          exact (List.nodup_cons.mp hnd).1 hc'
        simp only [List.contains_cons, Bool.or_eq_false_iff]
        exact ⟨by simp [beq_eq_false_iff_ne, hne], hfresh c' (List.mem_cons_of_mem c hc')⟩
      have hres := ih (cy + cb.height + params.shapeGap) _ out
        (fun c' hc' => hleaf c' (List.mem_cons_of_mem c hc'))
        (List.nodup_cons.mp hnd).2 hrest hrun
      refine ⟨?_, ?_⟩
      · rw [hres.1]
        simp only [verticalLeafRow, hfind, List.append_assoc, List.cons_append,
          List.nil_append]
      · rw [hres.2]
        simp

/-- C1 amended: for a vertical-layout box whose children (per the derived
graph) are pairwise-distinct, not-yet-visited leaf boxes — which is the
shape the enforced no-grandchildren invariant guarantees — the placement
pass puts every child at the shared x
`parentCenterX − maxChildWidth / 2` (the `verticalIndent` parameter plays no
role in placement), while each sibling's y advances by the previous
sibling's subtree height plus `shapeGap`, starting at the node's bottom edge
plus `levelHeight`. -/
theorem c1_vertical_placement (boxes : List BoxData) (co : String → List String)
    (dims : String → Option (Rat × Rat)) (params : LayoutParams) (fuel : Nat)
    (nodeId : String) (x y aw : Rat) (st out : PlaceState) (node : BoxData)
    (cids : List String)
    (hrun : ltr boxes co dims params (fuel + 1) nodeId x y aw st = some out)
    (hvis : st.visited.contains nodeId = false)
    (hfind : boxes.find? (fun b => b.id = nodeId) = some node)
    (hvert : node.childLayout = ChildLayout.vertical)
    (hcids : co nodeId = cids)
    (hne : cids ≠ [])
    (hleaf : ∀ c ∈ cids, ∃ cb, boxes.find? (fun b => b.id = c) = some cb ∧
      co c = [] ∧ dims c = some (cb.width, cb.height))
    (hnd : cids.Nodup)
    (hfresh : ∀ c ∈ cids, st.visited.contains c = false ∧ c ≠ nodeId) :
    out.result = st.result ++
      Shape.box { node with
                    x := x + (aw - node.width) / 2
                    y := y
                    level := jsRound ((y - 40) / params.levelHeight) } ::
        verticalLeafRow boxes params
          (x + (aw - node.width) / 2 + node.width / 2 -
            listMax ((cids.map dims).map fun o => (o.map Prod.fst).getD 0) / 2)
          cids (y + node.height + params.levelHeight) := by
  cases cids with
  | nil => exact absurd rfl hne
  | cons c rest =>
    simp only [ltr, hvis, Bool.false_eq_true, if_false, hfind, hcids, hvert, if_pos,
      ite_true] at hrun
    rw [← hvert] at hrun
    have hfresh2 : ∀ c' ∈ c :: rest,
        (PlaceState.mk
          (st.result ++
            [Shape.box { node with
                           x := x + (aw - node.width) / 2
                           y := y
                           level := jsRound ((y - 40) / params.levelHeight) }])
          (nodeId :: st.visited)).visited.contains c' = false := by
      intro c' hc'
      simp only [List.contains_cons, Bool.or_eq_false_iff]
      constructor
      · simp [beq_eq_false_iff_ne, (hfresh c' hc').2]
      · exact (hfresh c' hc').1
    have h := placeV_leaf_children boxes co dims params fuel
      (x + (aw - node.width) / 2 + node.width / 2 -
        listMax (((c :: rest).map dims).map fun o => (o.map Prod.fst).getD 0) / 2)
      (c :: rest) (y + node.height + params.levelHeight) _ out hleaf hnd hfresh2 hrun
    rw [h.1]
    simp [List.append_assoc]

/-- C1 witness: the amended vertical-placement theorem applied to the
concrete stack `vStackShapes` (parent `"P"` at allocation `[0, 160]`, one
leaf child `"C"`): the run returns `vStackPlaced`, and the theorem's
description of the result list holds with the parent at x = 30 and the
child row starting at the parent's center 80 minus half of the maximum
child width 60. -/
theorem c1_vertical_placement_witness :
    ltr (shapeBoxes vStackShapes)
        (graphChildren (shapeBoxes vStackShapes) (shapeConns vStackShapes))
        (subtreeDims (shapeBoxes vStackShapes) (shapeConns vStackShapes)
          defaultLayoutParams 5)
        defaultLayoutParams 6 "P" 0 0 160 ⟨[], []⟩ = some vStackPlaced ∧
    vStackPlaced.result = [] ++
      Shape.box { pBoxData with
                    x := 0 + ((160 : Rat) - pBoxData.width) / 2
                    y := 0
                    level := jsRound (((0 : Rat) - 40) / defaultLayoutParams.levelHeight) } ::
        verticalLeafRow (shapeBoxes vStackShapes) defaultLayoutParams
          (0 + ((160 : Rat) - pBoxData.width) / 2 + pBoxData.width / 2 -
            listMax ((["C"].map (subtreeDims (shapeBoxes vStackShapes)
                (shapeConns vStackShapes) defaultLayoutParams 5)).map
              fun o => (o.map Prod.fst).getD 0) / 2)
          ["C"] (0 + pBoxData.height + defaultLayoutParams.levelHeight) := by
  constructor
  · decide
  · exact c1_vertical_placement (shapeBoxes vStackShapes)
      (graphChildren (shapeBoxes vStackShapes) (shapeConns vStackShapes))
      (subtreeDims (shapeBoxes vStackShapes) (shapeConns vStackShapes)
        defaultLayoutParams 5)
      defaultLayoutParams 5 "P" 0 0 160 ⟨[], []⟩ vStackPlaced pBoxData ["C"]
      (by decide) (by decide) (by decide) (by decide) (by decide) (by decide)
      (by decide) (by decide) (by decide)

/-- The demotion step at a matching head is exactly `demoteShape`. -/
theorem demoteFirstAt_cons_hit (s : Shape) (rest : List Shape) (pid : String)
    (h : s.id = pid) :
    demoteFirstAt (s :: rest) pid = demoteShape s :: rest := by
  cases s with
  | box d =>
    simp only [demoteFirstAt, if_pos h]
    rfl
  | conn d =>
    simp only [demoteFirstAt, if_pos h]
    rfl
  | other d =>
    simp only [demoteFirstAt, if_pos h]
    rfl

/-- The map `demoteShape` never changes a shape's id. -/
theorem demoteShape_id (s : Shape) : (demoteShape s).id = s.id := by
  cases s with
  | box d =>
    simp only [demoteShape]
    split
    · rfl
    · rfl
  | conn d => rfl
  | other d => rfl

/-- The map `demoteShape` is idempotent. -/
theorem demoteShape_idem (s : Shape) : demoteShape (demoteShape s) = demoteShape s := by
  cases s with
  | box d =>
    by_cases hv : d.childLayout = ChildLayout.vertical
    · simp [demoteShape, hv]
    · simp [demoteShape, hv]
  | conn d => rfl
  | other d => rfl

/-- A demotion pass at an id no shape of the list carries is a no-op. -/
theorem demote_map_noop (i : String) :
    ∀ l : List Shape, (∀ t ∈ l, t.id ≠ i) →
      l.map (fun s => if s.id = i then demoteShape s else s) = l := by
  intro l
  induction l with
  | nil => intro _; rfl
  | cons s rest ih =>
    intro h
    rw [List.map_cons, if_neg (h s (List.mem_cons_self s rest)),
      ih fun t ht => h t (List.mem_cons_of_mem s ht)]

/-- With pairwise-distinct ids, the first-occurrence demotion of
`enforceHorizontalParents` is a map over the whole list. -/
theorem demoteFirstAt_eq_map (i : String) :
    ∀ l : List Shape, (l.map Shape.id).Nodup →
      demoteFirstAt l i = l.map fun s => if s.id = i then demoteShape s else s := by
  intro l
  induction l with
  | nil => intro _; rfl
  | cons s rest ih =>
    intro hnd
    rw [List.map_cons] at hnd
    have hnd' := List.nodup_cons.mp hnd
    by_cases h : s.id = i
    · rw [demoteFirstAt_cons_hit s rest i h, List.map_cons, if_pos h]
      have hno : ∀ t ∈ rest, t.id ≠ i := by
        intro t ht hti
        exact hnd'.1 (by rw [h, ← hti]; exact List.mem_map_of_mem Shape.id ht)
      rw [demote_map_noop i rest hno]
    · simp only [demoteFirstAt, if_neg h, List.map_cons]
      rw [ih hnd'.2]

/-- Folding `demoteList` under pairwise-distinct ids is a single map keyed by
membership in the id list. -/
theorem demoteList_eq_map :
    ∀ (ids : List String) (l : List Shape), (l.map Shape.id).Nodup →
      demoteList l ids = l.map fun s => if s.id ∈ ids then demoteShape s else s := by
  intro ids
  induction ids with
  | nil =>
    intro l _
    simp [demoteList]
  | cons i rest ih =>
    intro l hnd
    have hids : (demoteFirstAt l i).map Shape.id = l.map Shape.id := by
      rw [demoteFirstAt_eq_map i l hnd, List.map_map]
      apply List.map_congr_left
      intro s _
      by_cases h : s.id = i
      · simp [Function.comp, h, demoteShape_id]
      · simp [Function.comp, h]
    have step : demoteList l (i :: rest) = demoteList (demoteFirstAt l i) rest := rfl
    rw [step, ih (demoteFirstAt l i) (by rw [hids]; exact hnd),
      demoteFirstAt_eq_map i l hnd, List.map_map]
    apply List.map_congr_left
    intro s _
    by_cases h : s.id = i
    · simp only [Function.comp, if_pos h, demoteShape_id, h]
      by_cases hr : (i : String) ∈ rest
      · simp [hr, demoteShape_idem]
      · simp [hr, demoteShape_idem]
    · simp only [Function.comp, if_neg h]
      by_cases hr : s.id ∈ rest
      · simp [hr, List.mem_cons, h]
      · simp [hr, List.mem_cons, h]

/-- The loop of `enforceHorizontalParents` computes `demoteList` over the
ids collected by `walkDemote`. -/
theorem ehpLoop_eq_demoteList (shapes0 : List Shape) (c0 : String) :
    ∀ (fuel : Nat) (cur : String) (acc out : List Shape),
      ehpLoop shapes0 c0 fuel cur acc = some out →
      out = demoteList acc (walkDemote shapes0 c0 fuel cur) := by
  intro fuel
  induction fuel with
  | zero => intro cur acc out h; cases h
  | succ f ih =>
    intro cur acc out h
    cases hp : ehpParentOf shapes0 cur with
    | none =>
      simp only [ehpLoop, hp] at h
      cases h
      simp [walkDemote, hp, demoteList]
    | some p =>
      simp only [ehpLoop, hp] at h
      simp only [walkDemote, hp]
      by_cases hc : cur ≠ c0
      · rw [if_pos hc] at h
        rw [if_pos hc]
        simpa [demoteList] using ih p (demoteFirstAt acc p) out h
      · rw [if_neg hc] at h
        rw [if_neg hc]
        simpa [demoteList] using ih p acc out h

/-- Away from the starting node, the demotion walk is exactly the ancestor
chain. -/
theorem walkDemote_eq_ancestors (shapes0 : List Shape) (c0 : String) :
    ∀ (fuel : Nat) (cur : String), cur ≠ c0 →
      c0 ∉ ancestors shapes0 fuel cur →
      walkDemote shapes0 c0 fuel cur = ancestors shapes0 fuel cur := by
  intro fuel
  induction fuel with
  | zero => intro cur _ _; rfl
  | succ f ih =>
    intro cur hcur hno
    cases hp : ehpParentOf shapes0 cur with
    | none => simp [walkDemote, ancestors, hp]
    | some p =>
      simp only [ancestors, hp] at hno
      have hpne : p ≠ c0 := fun h => hno (h ▸ List.mem_cons_self p _)
      simp only [walkDemote, ancestors, hp, if_pos hcur]
      rw [ih p hpne fun h => hno (List.mem_cons_of_mem p h)]
      simp

/-- C2: when node X (the parent of the newly added child) gained new depth
below it, a terminating run of `enforceHorizontalParents` demotes to
horizontal exactly the vertical boxes whose id lies on the parent chain
starting at X's immediate parent — that parent included, X itself and the
new child untouched.  (The id-distinctness hypothesis reflects the unique
ids the editor generates; the non-revisiting hypothesis excludes cyclic
parent chains, on which the source's `while` loop never terminates.) -/
theorem c2_enforce_demotes_strict_ancestors (shapes : List Shape)
    (newChildId X : String) (fuel : Nat) (out : List Shape)
    (hnd : (shapes.map Shape.id).Nodup)
    (hX : ehpParentOf shapes newChildId = some X)
    (hXne : X ≠ newChildId)
    (hnorev : newChildId ∉ ancestors shapes fuel X)
    (hrun : enforceHorizontalParents (fuel + 1) newChildId shapes = some out) :
    out = shapes.map fun s =>
      if s.id ∈ ancestors shapes fuel X then demoteShape s else s := by
  have hrun' : ehpLoop shapes newChildId (fuel + 1) newChildId shapes = some out := hrun
  have h1 := ehpLoop_eq_demoteList shapes newChildId (fuel + 1) newChildId shapes out hrun'
  have h2 : walkDemote shapes newChildId (fuel + 1) newChildId =
      walkDemote shapes newChildId fuel X := by
    simp [walkDemote, hX]
  have h3 := walkDemote_eq_ancestors shapes newChildId fuel X hXne hnorev
  rw [h2, h3] at h1
  rw [h1, demoteList_eq_map _ _ hnd]

/-- C2 witness: on the chain D → Bp → Ap → Rt with Bp, Ap, Rt all vertical,
enforcement for new child D demotes Ap and Rt (the chain starting at Bp's
immediate parent) and leaves Bp — the parent that gained the child —
vertical. -/
theorem c2_enforce_demotes_strict_ancestors_witness :
    ((deepChainShapes.map Shape.id).Nodup ∧
      ehpParentOf deepChainShapes "D" = some "Bp" ∧
      ("Bp" : String) ≠ "D" ∧
      ("D" : String) ∉ ancestors deepChainShapes 9 "Bp" ∧
      ancestors deepChainShapes 9 "Bp" = ["Ap", "Rt"]) ∧
    enforceHorizontalParents 10 "D" deepChainShapes =
      some ((enforceHorizontalParents 10 "D" deepChainShapes).getD []) ∧
    (enforceHorizontalParents 10 "D" deepChainShapes).getD [] =
      (deepChainShapes.map fun s =>
        if s.id ∈ ancestors deepChainShapes 9 "Bp" then demoteShape s else s) ∧
    (shapeBoxes ((enforceHorizontalParents 10 "D" deepChainShapes).getD [])).map
        (fun b => (b.id, b.childLayout)) =
      [("Rt", ChildLayout.horizontal), ("Ap", ChildLayout.horizontal),
       ("Bp", ChildLayout.vertical), ("D", ChildLayout.horizontal)] := by
  refine ⟨⟨by decide, by decide, by decide, by decide, by decide⟩, by decide, ?_, by decide⟩
  exact c2_enforce_demotes_strict_ancestors deepChainShapes "D" "Bp" 9
    ((enforceHorizontalParents 10 "D" deepChainShapes).getD [])
    (by decide) (by decide) (by decide) (by decide) (by decide)

/-- Characterization of the edge `buildGraph` extracts from a connector:
both bindings present and both bound ids resolving to boxes. -/
theorem graphEdge_eq_some (boxes : List BoxData) (d : ConnData) (p c : String) :
    graphEdge boxes d = some (p, c) ↔
      ∃ sb eb, d.startBinding = some sb ∧ d.endBinding = some eb ∧
        sb.shapeId = p ∧ eb.shapeId = c ∧
        isBoxId boxes p = true ∧ isBoxId boxes c = true := by
  unfold graphEdge
  cases hsb : d.startBinding with
  | none => simp
  | some sb =>
    cases heb : d.endBinding with
    | none => simp
    | some eb =>
      dsimp only
      by_cases h1 : isBoxId boxes sb.shapeId = true
      · by_cases h2 : isBoxId boxes eb.shapeId = true
        · rw [if_pos (by rw [h1, h2]; rfl)]
          constructor
          · intro h
            obtain ⟨hp, hc⟩ := Prod.mk.injEq _ _ _ _ ▸ Option.some.injEq _ _ ▸ h
            exact ⟨sb, eb, rfl, rfl, by simp_all, by simp_all, by simp_all, by simp_all⟩
          · rintro ⟨sb', eb', hsb', heb', hp, hc, hb1, hb2⟩
            obtain rfl : sb' = sb := by simp_all
            obtain rfl : eb' = eb := by simp_all
            simp [hp, hc]
        · rw [if_neg (by simp [h2])]
          constructor
          · intro h; cases h
          · rintro ⟨sb', eb', hsb', heb', hp, hc, hb1, hb2⟩
            obtain rfl : eb' = eb := by simp_all
            exact absurd (hc ▸ hb2) h2
      · rw [if_neg (by simp [h1])]
        constructor
        · intro h; cases h
        · rintro ⟨sb', eb', hsb', heb', hp, hc, hb1, hb2⟩
          obtain rfl : sb' = sb := by simp_all
          exact absurd (hp ▸ hb1) h1

/-- Characterization of the edge `hasGrandchildren` /
`enforceHorizontalParents` extract from a connector: both bindings present
with nonempty ids — no existence requirement. -/
theorem presentEdge_eq_some (d : ConnData) (p c : String) :
    presentEdge d = some (p, c) ↔
      ∃ sb eb, d.startBinding = some sb ∧ d.endBinding = some eb ∧
        sb.shapeId = p ∧ eb.shapeId = c ∧ sb.shapeId ≠ "" ∧ eb.shapeId ≠ "" := by
  unfold presentEdge
  cases hsb : d.startBinding with
  | none => simp
  | some sb =>
    cases heb : d.endBinding with
    | none => simp
    | some eb =>
      dsimp only
      by_cases h1 : sb.shapeId = ""
      · rw [if_neg (by simp [h1])]
        constructor
        · intro h; cases h
        · rintro ⟨sb', eb', hsb', heb', hp, hc, hb1, hb2⟩
          obtain rfl : sb' = sb := by simp_all
          exact absurd h1 hb1
      · by_cases h2 : eb.shapeId = ""
        · rw [if_neg (by simp [h2])]
          constructor
          · intro h; cases h
          · rintro ⟨sb', eb', hsb', heb', hp, hc, hb1, hb2⟩
            obtain rfl : eb' = eb := by simp_all
            exact absurd h2 hb2
        · rw [if_pos (by simp [h1, h2])]
          constructor
          · intro h
            exact ⟨sb, eb, rfl, rfl, by simp_all, by simp_all, h1, h2⟩
          · rintro ⟨sb', eb', hsb', heb', hp, hc, hb1, hb2⟩
            obtain rfl : sb' = sb := by simp_all
            obtain rfl : eb' = eb := by simp_all
            simp [hp, hc]

/-- The `enforceHorizontalParents` parent lookup finds a parent exactly when
some connector's `presentEdge` ends at the child — dangling ids included. -/
theorem ehpParentOf_isSome_iff (shapes : List Shape) (cid : String) :
    (ehpParentOf shapes cid).isSome ↔
      ∃ d ∈ shapeConns shapes, ∃ p, presentEdge d = some (p, cid) := by
  have main : ∀ (l : List ConnData) (acc : Option String),
      (l.foldl
        (fun acc d =>
          match presentEdge d with
          | some (p, c) => if c = cid then some p else acc
          | none => acc)
        acc).isSome ↔
        acc.isSome ∨ ∃ d ∈ l, ∃ p, presentEdge d = some (p, cid) := by
    intro l
    induction l with
    | nil => intro acc; simp
    | cons d rest ih =>
      intro acc
      rw [List.foldl_cons, ih]
      have hstep : ((match presentEdge d with
          | some (p, c) => if c = cid then some p else acc
          | none => acc) : Option String).isSome ↔
          acc.isSome ∨ ∃ p, presentEdge d = some (p, cid) := by
        cases hpe : presentEdge d with
        | none => simp
        | some pc =>
          obtain ⟨p, c⟩ := pc
          dsimp only
          by_cases hc : c = cid
          · subst hc
            simp [hpe]
          · simp only [if_neg hc]
            constructor
            · intro h; exact Or.inl h
            · rintro (h | ⟨p', hp'⟩)
              · exact h
              · exact absurd (congrArg Prod.snd (Option.some.inj hp')) hc
      rw [hstep]
      constructor
      · rintro ((h | hd) | hr)
        · exact Or.inl h
        · exact Or.inr ⟨d, List.mem_cons_self d rest, hd⟩
        · obtain ⟨d', hd', hp⟩ := hr
          exact Or.inr ⟨d', List.mem_cons_of_mem d hd', hp⟩
      · rintro (h | ⟨d', hd', hp⟩)
        · exact Or.inl (Or.inl h)
        · rcases List.mem_cons.mp hd' with rfl | hmem
          · exact Or.inl (Or.inr hp)
          · exact Or.inr ⟨d', hmem, hp⟩
  rw [show ehpParentOf shapes cid = (shapeConns shapes).foldl
    (fun acc d =>
      match presentEdge d with
      | some (p, c) => if c = cid then some p else acc
      | none => acc) none from rfl, main]
  simp

/-- C4 amended: a connector contributes an edge to `buildGraph` (the
parent/child maps consumed by layout) exactly when both bindings are
present and both bound ids resolve to existing boxes; but the graphs of
`hasGrandchildren` and `enforceHorizontalParents` require only that both
bindings are present with nonempty ids — a binding to a non-existent box
still contributes an edge there. -/
theorem c4_graph_edge_requirements (boxes : List BoxData) (conns : List ConnData)
    (shapes : List Shape) (pid cid : String) :
    (cid ∈ graphChildren boxes conns pid ↔
      ∃ d ∈ conns, ∃ sb eb, d.startBinding = some sb ∧ d.endBinding = some eb ∧
        sb.shapeId = pid ∧ eb.shapeId = cid ∧
        isBoxId boxes pid = true ∧ isBoxId boxes cid = true) ∧
    (cid ∈ hgChildren shapes pid ↔
      ∃ d ∈ shapeConns shapes, ∃ sb eb,
        d.startBinding = some sb ∧ d.endBinding = some eb ∧
        sb.shapeId = pid ∧ eb.shapeId = cid ∧
        sb.shapeId ≠ "" ∧ eb.shapeId ≠ "") ∧
    ((ehpParentOf shapes cid).isSome ↔
      ∃ d ∈ shapeConns shapes, ∃ sb eb,
        d.startBinding = some sb ∧ d.endBinding = some eb ∧
        sb.shapeId ≠ "" ∧ eb.shapeId ≠ "" ∧ eb.shapeId = cid) := by
  refine ⟨?_, ?_, ?_⟩
  · unfold graphChildren
    rw [List.mem_filterMap]
    constructor
    · rintro ⟨d, hd, hf⟩
      cases hpe : graphEdge boxes d with
      | none => rw [hpe] at hf; cases hf
      | some pc =>
        obtain ⟨p, c⟩ := pc
        rw [hpe] at hf
        dsimp only at hf
        by_cases hp : p = pid
        · rw [if_pos hp] at hf
          obtain rfl : c = cid := by simpa using hf
          subst hp
          obtain ⟨sb, eb, h1, h2, h3, h4, h5, h6⟩ := (graphEdge_eq_some boxes d p c).mp hpe
          exact ⟨d, hd, sb, eb, h1, h2, h3, h4, h3 ▸ h5, h4 ▸ h6⟩
        · rw [if_neg hp] at hf; cases hf
    · rintro ⟨d, hd, sb, eb, h1, h2, h3, h4, h5, h6⟩
      refine ⟨d, hd, ?_⟩
      rw [(graphEdge_eq_some boxes d pid cid).mpr
        ⟨sb, eb, h1, h2, h3, h4, h5, h6⟩]
      simp
  · unfold hgChildren
    rw [List.mem_filterMap]
    constructor
    · rintro ⟨d, hd, hf⟩
      cases hpe : presentEdge d with
      | none => rw [hpe] at hf; cases hf
      | some pc =>
        obtain ⟨p, c⟩ := pc
        rw [hpe] at hf
        dsimp only at hf
        by_cases hp : p = pid
        · rw [if_pos hp] at hf
          obtain rfl : c = cid := by simpa using hf
          subst hp
          obtain ⟨sb, eb, h1, h2, h3, h4, h5, h6⟩ := (presentEdge_eq_some d p c).mp hpe
          exact ⟨d, hd, sb, eb, h1, h2, h3, h4, h5, h6⟩
        · rw [if_neg hp] at hf; cases hf
    · rintro ⟨d, hd, sb, eb, h1, h2, h3, h4, h5, h6⟩
      refine ⟨d, hd, ?_⟩
      rw [(presentEdge_eq_some d pid cid).mpr ⟨sb, eb, h1, h2, h3, h4, h5, h6⟩]
      simp
  · rw [ehpParentOf_isSome_iff]
    constructor
    · rintro ⟨d, hd, p, hp⟩
      obtain ⟨sb, eb, h1, h2, h3, h4, h5, h6⟩ := (presentEdge_eq_some d p cid).mp hp
      exact ⟨d, hd, sb, eb, h1, h2, h5, h6, h4⟩
    · rintro ⟨d, hd, sb, eb, h1, h2, h5, h6, h4⟩
      exact ⟨d, hd, sb.shapeId,
        (presentEdge_eq_some d sb.shapeId cid).mpr ⟨sb, eb, h1, h2, rfl, h4, h5, h6⟩⟩

/-- C8 counterexample: with connector `"K1"` bound to connector `"K2"`
(whose stored `(x, y)` initially disagrees with the minimum of its
endpoints), resolving twice differs from resolving once — box geometry is
untouched (the set has no boxes at all), yet `resolveConnectors` is not
idempotent, because pass one moves `"K2"`'s reference point and pass two
re-reads it. -/
theorem c8_idempotence_counterexample :
    updateAllConnectors (updateAllConnectors connPairShapes) ≠
      updateAllConnectors connPairShapes := by
  decide

/-- The resolver `updateSingleConnector` never changes a shape's id. -/
theorem usc_id (m : List Shape) (s : Shape) :
    (updateSingleConnector m s).id = s.id := by
  cases s <;> rfl

/-- The resolver `updateSingleConnector` leaves non-connector shapes unchanged. -/
theorem usc_nonconn (m : List Shape) (s : Shape) (h : s.isConn = false) :
    updateSingleConnector m s = s := by
  cases s with
  | box d => rfl
  | other d => rfl
  | conn d => simp [Shape.isConn] at h

/-- The resolver `updateSingleConnector` preserves connector-ness. -/
theorem usc_isConn (m : List Shape) (s : Shape) :
    (updateSingleConnector m s).isConn = s.isConn := by
  cases s <;> rfl

/-- The resolver `updateSingleConnector` preserves a connector's bindings. -/
theorem usc_bindings (m : List Shape) (d : ConnData) :
    ∃ d', updateSingleConnector m (Shape.conn d) = Shape.conn d' ∧
      d'.startBinding = d.startBinding ∧ d'.endBinding = d.endBinding := by
  refine ⟨_, rfl, rfl, rfl⟩

/-- Looking a shape up in the resolved set finds the resolved version of
the shape found in the input set. -/
theorem lookup_updateAll (shapes : List Shape) (i : String) :
    lookupShape (updateAllConnectors shapes) i =
      (lookupShape shapes i).map (updateSingleConnector shapes) := by
  unfold lookupShape updateAllConnectors
  rw [← List.map_reverse, List.find?_map]
  have hp : ((fun s => decide (s.id = i)) ∘ updateSingleConnector shapes) =
      fun s : Shape => decide (s.id = i) := by
    funext s
    simp [Function.comp, usc_id]
  rw [hp]

/-- C8 amended: `updateAllConnectors` is idempotent on every shape set in
which no connector binding resolves to another connector (bindings to
boxes, to nothing, or to missing ids are all fine).  The counterexample
shows the connector-to-connector case is the only obstruction: there, pass
one moves the bound connector's `(x, y)` anchor and pass two re-reads it. -/
theorem c8_resolution_idempotent_no_conn_bindings (shapes : List Shape)
    (h : noConnectorBindings shapes) :
    updateAllConnectors (updateAllConnectors shapes) = updateAllConnectors shapes := by
  have hmm : updateAllConnectors (updateAllConnectors shapes) =
      shapes.map (updateSingleConnector (updateAllConnectors shapes) ∘
        updateSingleConnector shapes) := by
    show (shapes.map (updateSingleConnector shapes)).map
        (updateSingleConnector (updateAllConnectors shapes)) = _
    rw [List.map_map]
  rw [hmm]
  show _ = shapes.map (updateSingleConnector shapes)
  apply List.map_congr_left
  intro s hs
  rw [Function.comp_apply]
  cases s with
  | box d => rfl
  | other d => rfl
  | conn d =>
    have hres : ∀ b : Binding, d.startBinding = some b ∨ d.endBinding = some b →
        lookupShape (updateAllConnectors shapes) b.shapeId =
          lookupShape shapes b.shapeId := by
      intro b hb
      rw [lookup_updateAll]
      cases hl : lookupShape shapes b.shapeId with
      | none => rfl
      | some t =>
        have hnc := h d hs b hb t hl
        simp [usc_nonconn shapes t hnc]
    cases hsb : d.startBinding with
    | none =>
      cases heb : d.endBinding with
      | none =>
        simp only [updateSingleConnector, hsb, heb]
      | some eb =>
        have h2 := hres eb (Or.inr heb)
        cases hle : lookupShape shapes eb.shapeId with
        | none => simp only [updateSingleConnector, hsb, heb, hle, h2]
        | some t => simp only [updateSingleConnector, hsb, heb, hle, h2]
    | some sb =>
      have h1 := hres sb (Or.inl hsb)
      cases hls : lookupShape shapes sb.shapeId with
      | none =>
        cases heb : d.endBinding with
        | none => simp only [updateSingleConnector, hsb, heb, hls, h1]
        | some eb =>
          have h2 := hres eb (Or.inr heb)
          cases hle : lookupShape shapes eb.shapeId with
          | none => simp only [updateSingleConnector, hsb, heb, hls, hle, h1, h2]
          | some t => simp only [updateSingleConnector, hsb, heb, hls, hle, h1, h2]
      | some t1 =>
        cases heb : d.endBinding with
        | none => simp only [updateSingleConnector, hsb, heb, hls, h1]
        | some eb =>
          have h2 := hres eb (Or.inr heb)
          cases hle : lookupShape shapes eb.shapeId with
          | none => simp only [updateSingleConnector, hsb, heb, hls, hle, h1, h2]
          | some t => simp only [updateSingleConnector, hsb, heb, hls, hle, h1, h2]

/-- C8 witness: on a box with a connector bound to it,
`noConnectorBindings` holds and resolving twice equals resolving once. -/
theorem c8_resolution_idempotent_witness :
    noConnectorBindings boxBoundShapes ∧
    updateAllConnectors (updateAllConnectors boxBoundShapes) =
      updateAllConnectors boxBoundShapes := by
  have hn : noConnectorBindings boxBoundShapes := by
    intro d hd b hb t ht
    have hd' : d = { id := "K"
                     x := 0
                     y := 0
                     startPoint := ⟨0, 0⟩
                     endPoint := ⟨33, 44⟩
                     startDirection := .horizontal
                     startBinding := some ⟨"A", .bottom⟩
                     endBinding := none
                     startArrowhead := .none
                     endArrowhead := .none } := by
      simpa [boxBoundShapes, sampleBox] using hd
    subst hd'
    rcases hb with hb | hb
    · obtain rfl : b = (⟨"A", .bottom⟩ : Binding) := by simpa using hb.symm
      have hl : lookupShape boxBoundShapes "A" =
          some (sampleBox "A" 0 0 140 50 0 .horizontal) := by decide
      rw [hl] at ht
      obtain rfl : t = sampleBox "A" 0 0 140 50 0 .horizontal := by simpa using ht.symm
      rfl
    · cases hb
  exact ⟨hn, c8_resolution_idempotent_no_conn_bindings boxBoundShapes hn⟩

/-- The vertical-children loop only appends repositioned input boxes. -/
theorem placeV_frame (boxes : List BoxData)
    (recurse : String → Rat → Rat → Rat → PlaceState → Option PlaceState)
    (hrec : RecFrame boxes recurse) (gap cx : Rat) :
    ∀ (l : List (String × Option (Rat × Rat))) (cy : Rat) (st st' : PlaceState),
      placeV recurse gap cx l cy st = some st' →
      ∃ tail, st'.result = st.result ++ tail ∧ ∀ s ∈ tail, placedFrom boxes s := by
  intro l
  induction l with
  | nil =>
    intro cy st st' h
    cases h
    exact ⟨[], by simp, by simp⟩
  | cons p rest ih =>
    obtain ⟨cid, dopt⟩ := p
    cases dopt with
    | none =>
      intro cy st st' h
      exact ih cy st st' h
    | some dd =>
      intro cy st st' h
      simp only [placeV] at h
      cases hr : recurse cid cx cy dd.1 st with
      | none => rw [hr] at h; cases h
      | some st1 =>
        rw [hr] at h
        obtain ⟨t1, ht1, hp1⟩ := hrec cid cx cy dd.1 st st1 hr
        obtain ⟨t2, ht2, hp2⟩ := ih (cy + dd.2 + gap) st1 st' h
        refine ⟨t1 ++ t2, ?_, ?_⟩
        · rw [ht2, ht1, List.append_assoc]
        · intro s hsm
          rcases List.mem_append.mp hsm with hm | hm
          · exact hp1 s hm
          · exact hp2 s hm

/-- The horizontal-children loop only appends repositioned input boxes. -/
theorem placeH_frame (boxes : List BoxData)
    (recurse : String → Rat → Rat → Rat → PlaceState → Option PlaceState)
    (hrec : RecFrame boxes recurse) (gap cyy : Rat) :
    ∀ (l : List (String × Option (Rat × Rat))) (cx : Rat) (st st' : PlaceState),
      placeH recurse gap cyy l cx st = some st' →
      ∃ tail, st'.result = st.result ++ tail ∧ ∀ s ∈ tail, placedFrom boxes s := by
  intro l
  induction l with
  | nil =>
    intro cx st st' h
    cases h
    exact ⟨[], by simp, by simp⟩
  | cons p rest ih =>
    obtain ⟨cid, dopt⟩ := p
    cases dopt with
    | none =>
      intro cx st st' h
      exact ih cx st st' h
    | some dd =>
      intro cx st st' h
      simp only [placeH] at h
      cases hr : recurse cid cx cyy dd.1 st with
      | none => rw [hr] at h; cases h
      | some st1 =>
        rw [hr] at h
        obtain ⟨t1, ht1, hp1⟩ := hrec cid cx cyy dd.1 st st1 hr
        obtain ⟨t2, ht2, hp2⟩ := ih (cx + dd.1 + gap) st1 st' h
        refine ⟨t1 ++ t2, ?_, ?_⟩
        · rw [ht2, ht1, List.append_assoc]
        · intro s hsm
          rcases List.mem_append.mp hsm with hm | hm
          · exact hp1 s hm
          · exact hp2 s hm

/-- The placement recursion only appends repositioned input boxes, at any
fuel. -/
theorem ltr_frame (boxes : List BoxData) (co : String → List String)
    (dims : String → Option (Rat × Rat)) (params : LayoutParams) :
    ∀ fuel, RecFrame boxes (ltr boxes co dims params fuel) := by
  intro fuel
  induction fuel with
  | zero => intro nodeId x y aw st st' h; cases h
  | succ f ih =>
    intro nodeId x y aw st st' h
    by_cases hv : st.visited.contains nodeId
    · simp only [ltr, hv, if_true] at h
      cases h
      exact ⟨[], by simp, by simp⟩
    · simp only [ltr, hv, Bool.false_eq_true, if_false] at h
      cases hf : boxes.find? (fun b => b.id = nodeId) with
      | none =>
        rw [hf] at h
        dsimp only at h
        cases h
        exact ⟨[], by simp, by simp⟩
      | some node =>
        rw [hf] at h
        dsimp only at h
        have hmem : node ∈ boxes := List.mem_of_find?_eq_some hf
        cases hcs : co nodeId with
        | nil =>
          rw [hcs] at h
          dsimp only at h
          cases h
          refine ⟨[Shape.box { node with
                                 x := x + (aw - node.width) / 2
                                 y := y
                                 level := jsRound ((y - 40) / params.levelHeight) }],
            by simp, ?_⟩
          intro s hsm
          rw [List.mem_singleton] at hsm
          subst hsm
          exact ⟨node, _, _, _, hmem, rfl⟩
        | cons c cs =>
          rw [hcs] at h
          dsimp only at h
          by_cases hvert : node.childLayout = ChildLayout.vertical
          · rw [if_pos hvert] at h
            obtain ⟨t2, ht2, hp2⟩ := placeV_frame boxes _ ih params.shapeGap _ _ _ _ _ h
            refine ⟨Shape.box { node with
                                  x := x + (aw - node.width) / 2
                                  y := y
                                  level := jsRound ((y - 40) / params.levelHeight) } :: t2,
              ?_, ?_⟩
            · rw [ht2]
              simp
            · intro s hsm
              rcases List.mem_cons.mp hsm with rfl | hm
              · exact ⟨node, _, _, _, hmem, rfl⟩
              · exact hp2 s hm
          · rw [if_neg hvert] at h
            obtain ⟨t2, ht2, hp2⟩ := placeH_frame boxes _ ih params.shapeGap _ _ _ _ _ h
            refine ⟨Shape.box { node with
                                  x := x + (aw - node.width) / 2
                                  y := y
                                  level := jsRound ((y - 40) / params.levelHeight) } :: t2,
              ?_, ?_⟩
            · rw [ht2]
              simp
            · intro s hsm
              rcases List.mem_cons.mp hsm with rfl | hm
              · exact ⟨node, _, _, _, hmem, rfl⟩
              · exact hp2 s hm

/-- The forest loop only appends repositioned input boxes. -/
theorem placeForest_frame (boxes : List BoxData)
    (recurse : String → Rat → Rat → Rat → PlaceState → Option PlaceState)
    (hrec : RecFrame boxes recurse) (params : LayoutParams) :
    ∀ (forest : List (BoxData × Rat × Rat)) (curX startY : Rat) (st st' : PlaceState),
      placeForest recurse params forest curX startY st = some st' →
      ∃ tail, st'.result = st.result ++ tail ∧ ∀ s ∈ tail, placedFrom boxes s := by
  intro forest
  induction forest with
  | nil =>
    intro curX startY st st' h
    cases h
    exact ⟨[], by simp, by simp⟩
  | cons f rest ih =>
    obtain ⟨r, w, hh⟩ := f
    intro curX startY st st' h
    simp only [placeForest] at h
    cases hr : recurse r.id curX startY w st with
    | none => rw [hr] at h; cases h
    | some st1 =>
      rw [hr] at h
      obtain ⟨t1, ht1, hp1⟩ := hrec r.id curX startY w st st1 hr
      obtain ⟨t2, ht2, hp2⟩ := ih (curX + w + params.shapeGap) startY st1 st' h
      refine ⟨t1 ++ t2, ?_, ?_⟩
      · rw [ht2, ht1, List.append_assoc]
      · intro s hsm
        rcases List.mem_append.mp hsm with hm | hm
        · exact hp1 s hm
        · exact hp2 s hm

/-- C10: whenever `layoutShapesByLevel` returns on an input containing at
least one box, the output is the placed boxes (each an input box with only
`x`/`y`/`level` changed), then the unvisited boxes as the identical input
elements, then all connectors, then all other shapes — the latter two
groups being exactly the input's own filtered sublists; and the input's
relative ordering is not preserved: a box overtakes a connector listed
before it. -/
theorem c10_layout_output_structure (fuel : Nat) (shapes : List Shape)
    (canvasWidth canvasHeight : Rat) (params : LayoutParams) (out : List Shape)
    (hbox : (shapeBoxes shapes).isEmpty = false)
    (hrun : layoutShapesByLevel fuel shapes canvasWidth canvasHeight params = some out) :
    (∃ st : PlaceState,
      (∀ s ∈ st.result, placedFrom (shapeBoxes shapes) s) ∧
      out = st.result ++
        ((shapeBoxes shapes).filter fun b => !st.visited.contains b.id).map Shape.box ++
        (shapes.filter Shape.isConn ++ shapeOthers shapes)) ∧
    (layoutShapesByLevel 9 boxAfterConnShapes 1200 800 defaultLayoutParams).map
        (List.map Shape.id) = some ["B", "K"] ∧
    boxAfterConnShapes.map Shape.id = ["K", "B"] := by
  refine ⟨?_, by decide, by decide⟩
  simp only [layoutShapesByLevel, hbox, Bool.false_eq_true, if_false] at hrun
  cases hfo : forestOf (shapeBoxes shapes) (shapeConns shapes) params fuel with
  | none => rw [hfo] at hrun; cases hrun
  | some forest =>
    rw [hfo] at hrun
    dsimp only at hrun
    cases hpf : placeForest
        (ltr (shapeBoxes shapes)
          (graphChildren (shapeBoxes shapes) (shapeConns shapes))
          (subtreeDims (shapeBoxes shapes) (shapeConns shapes) params fuel) params fuel)
        params forest (forestStartX canvasWidth params forest)
        (forestStartY canvasHeight forest) ⟨[], []⟩ with
    | none => rw [hpf] at hrun; cases hrun
    | some st =>
      rw [hpf] at hrun
      dsimp only at hrun
      cases hrun
      obtain ⟨tail, htail, hp⟩ := placeForest_frame (shapeBoxes shapes) _
        (ltr_frame (shapeBoxes shapes) _ _ params fuel) params forest _ _ _ _ hpf
      refine ⟨st, ?_, by simp⟩
      intro s hsm
      rw [htail] at hsm
      simp only [List.nil_append] at hsm
      exact hp s hsm

/-- C10 witness: the structure theorem applied to the concrete input
`boxAfterConnShapes` (a free connector listed before a box). -/
theorem c10_layout_output_structure_witness :
    (shapeBoxes boxAfterConnShapes).isEmpty = false ∧
    layoutShapesByLevel 9 boxAfterConnShapes 1200 800 defaultLayoutParams =
      some ((layoutShapesByLevel 9 boxAfterConnShapes 1200 800
        defaultLayoutParams).getD []) ∧
    ((∃ st : PlaceState,
      (∀ s ∈ st.result, placedFrom (shapeBoxes boxAfterConnShapes) s) ∧
      (layoutShapesByLevel 9 boxAfterConnShapes 1200 800 defaultLayoutParams).getD [] =
        st.result ++
          ((shapeBoxes boxAfterConnShapes).filter
            fun b => !st.visited.contains b.id).map Shape.box ++
          (boxAfterConnShapes.filter Shape.isConn ++ shapeOthers boxAfterConnShapes)) ∧
    (layoutShapesByLevel 9 boxAfterConnShapes 1200 800 defaultLayoutParams).map
        (List.map Shape.id) = some ["B", "K"] ∧
    boxAfterConnShapes.map Shape.id = ["K", "B"]) := by
  refine ⟨by decide, by decide, ?_⟩
  exact c10_layout_output_structure 9 boxAfterConnShapes 1200 800 defaultLayoutParams
    ((layoutShapesByLevel 9 boxAfterConnShapes 1200 800 defaultLayoutParams).getD [])
    (by decide) (by decide)
